import Mathlib

/-!
# Verification of the tabular data-grid engine of the esg-chatbot frontend

Shallow embedding of the client-side data-table logic of
`src/frontend/src/components/DataTable.js` and the CSV/JSON export helpers of
`src/frontend/src/pages/ChatPage.js` (`convertToCSV`, `downloadCSV`,
`downloadJSON`, `formatNumber`).

Modelling conventions:
* A JS scalar value (`null | boolean | number | string`) is the tagged type
  `Value`.  JS numbers are modelled as rationals; IEEE-754 rounding and the
  overflow of huge decimal literals to `Infinity` are outside the model, but
  the literal `Infinity` accepted by `parseFloat` is modelled exactly, since
  the sort comparator's behaviour depends on it.
* A record (one row) is an ordered association list of column name / value
  pairs; `row[col]` is `lookupField`, which yields `none` for an absent key
  (JS `undefined`).  The comparator's `x == null` test is `isNullish`, true
  for both `none` (undefined) and `some vnull`.
* `Array.prototype.sort` (V8) is a stable merge sort; it is modelled by
  `List.mergeSort` where the merge step takes from the left run exactly when
  the comparator applied to (right element, left element) is ≥ 0, matching
  the engine's stable merge and the ECMAScript stability requirement.
  A comparator result of NaN is coerced to +0 by `SortCompare`; the model's
  comparator therefore returns the integer sign directly, with the NaN case
  (difference of two like-signed infinities) mapped to 0.
* `String.prototype.localeCompare` is modelled as code-point lexicographic
  comparison (the ICU collation table is outside the model); the comparator
  only ever applies it to two `toLowerCase`d strings.
-/

namespace EsgGrid

/-- A JS scalar value as delivered by the query service: null, boolean,
number (modelled as a rational) or string. -/
inductive Value where
  | vnull : Value
  | vbool (b : Bool) : Value
  | vnum (q : ℚ) : Value
  | vstr (s : String) : Value
deriving DecidableEq

/-- One row of tabular data: an ordered mapping from column name to value. -/
def Record := List (String × Value)

instance : DecidableEq Record := by unfold Record; infer_instance

/-- JS property access `row[col]`: `none` models `undefined` (absent key). -/
def lookupField (r : Record) (c : String) : Option Value :=
  (r.find? (fun p => p.1 == c)).map Prod.snd

/-- The comparator's `x == null` test: true for `undefined` and `null`. -/
def isNullish : Option Value → Bool
  | none => true
  | some .vnull => true
  | some _ => false

/-! ## The permissive float parser (`parseFloat`)

`parseFloat` coerces its argument to a string, skips leading whitespace and
parses the longest prefix that is a `StrDecimalLiteral`: an optional sign
followed by either the literal `Infinity` or decimal digits with an optional
fraction and an optional exponent.  It returns NaN (`none` here) only when no
prefix parses at all. -/

/-- Result of a successful `parseFloat`: a finite value or a signed infinity
(`parseFloat("Infinity")` is `Infinity`, and `isNaN(Infinity)` is false, so
infinities take the numeric branch of the sort comparator). -/
inductive JsNum where
  | fin (q : ℚ) : JsNum
  | posInf : JsNum
  | negInf : JsNum
deriving DecidableEq

/-- Sign of the JS float subtraction `a - b` as used by the sort comparator,
with the NaN outcome (difference of two like-signed infinities) coerced to +0
as ECMAScript `SortCompare` does with a NaN comparator result. -/
def jsNumSubSign : JsNum → JsNum → Int
  | .fin a, .fin b => if a < b then -1 else if b < a then 1 else 0
  | .fin _, .posInf => -1
  | .fin _, .negInf => 1
  | .posInf, .fin _ => 1
  | .posInf, .posInf => 0
  | .posInf, .negInf => 1
  | .negInf, .fin _ => -1
  | .negInf, .posInf => -1
  | .negInf, .negInf => 0

/-- The whitespace characters skipped by `parseFloat` (the common ASCII
subset of `StrWhiteSpaceChar`). -/
def jsWhitespace (c : Char) : Bool :=
  c = ' ' || c = '\t' || c = '\n' || c = '\r' || c = '\x0b' || c = '\x0c'

/-- Numeric value of a list of decimal digit characters. -/
def digitsToNat (cs : List Char) : ℕ :=
  cs.foldl (fun a c => 10 * a + (c.toNat - 48)) 0

/-- Optional leading sign; returns (isNegative, rest). -/
def parseSign : List Char → Bool × List Char
  | '+' :: cs => (false, cs)
  | '-' :: cs => (true, cs)
  | cs => (false, cs)

/-- Optional exponent part `e`/`E` sign digits; an incomplete exponent (no
digits) is ignored, as `parseFloat` backtracks on it. -/
def parseExponent (cs : List Char) : Int :=
  match cs with
  | 'e' :: t | 'E' :: t =>
    let (neg, t2) := parseSign t
    let ds := t2.takeWhile Char.isDigit
    if ds.isEmpty then 0
    else if neg then -(digitsToNat ds : Int) else (digitsToNat ds : Int)
  | _ => 0

/-- Rational value `m * 10 ^ e` built without rational addition or
multiplication so that it evaluates by kernel reduction. -/
def decimalValue (m : Int) (e : Int) : ℚ :=
  if 0 ≤ e then ((m * (10 : Int) ^ e.toNat : Int) : ℚ)
  else mkRat m ((10 : ℕ) ^ (-e).toNat)

/-- Digits-with-optional-fraction part of a decimal literal: returns the
parsed value and is `none` when neither integer nor fraction digits are
present.  The value of `ip.fp` is the concatenated digits over `10^|fp|`,
scaled by the optional exponent that follows. -/
def parseUnsigned (cs : List Char) : Option ℚ :=
  let ip := cs.takeWhile Char.isDigit
  let rest := cs.dropWhile Char.isDigit
  let (fp, rest2) :=
    match rest with
    | '.' :: t => (t.takeWhile Char.isDigit, t.dropWhile Char.isDigit)
    | _ => ([], rest)
  if ip.isEmpty && fp.isEmpty then none
  else
    let mant : ℕ := digitsToNat (ip ++ fp)
    let expo : Int := parseExponent rest2
    some (decimalValue mant (expo - fp.length))

/-- The function `parseFloat` on a list of characters. -/
def parseFloatChars (cs0 : List Char) : Option JsNum :=
  let cs := cs0.dropWhile jsWhitespace
  let (neg, cs1) := parseSign cs
  if "Infinity".toList.isPrefixOf cs1 then
    some (if neg then .negInf else .posInf)
  else
    match parseUnsigned cs1 with
    | none => none
    | some q => some (.fin (if neg then -q else q))

/-! ## String forms of values -/

/-- Decimal digit character list of a natural number (fuel-based so that it
evaluates by kernel reduction). -/
def natDigitsAux : ℕ → ℕ → List Char
  | 0, _ => []
  | fuel + 1, n =>
    if n < 10 then [Char.ofNat (48 + n)]
    else natDigitsAux fuel (n / 10) ++ [Char.ofNat (48 + n % 10)]

/-- Decimal string of a natural number. -/
def natToString (n : ℕ) : String := String.mk (natDigitsAux (n + 1) n)

/-- Decimal string of an integer. -/
def intToString (i : Int) : String :=
  if i < 0 then "-" ++ natToString i.natAbs else natToString i.natAbs

/-- Fractional decimal digits of `rem / d`, up to the given fuel.  Stops when
the remainder is zero; JS's shortest-round-trip formatting of non-terminating
expansions is approximated by truncation at the fuel bound. -/
def fracDigits (d : ℕ) : ℕ → ℕ → List Char
  | 0, _ => []
  | fuel + 1, rem =>
    if rem = 0 then []
    else Char.ofNat (48 + rem * 10 / d) :: fracDigits d fuel (rem * 10 % d)

/-- JS default number-to-string conversion (`String(n)` / `Number::toString`):
integers print without a fraction, other values with a decimal fraction. -/
def numToString (q : ℚ) : String :=
  if q.den = 1 then intToString q.num
  else
    (if q.num < 0 then "-" else "") ++ natToString (q.num.natAbs / q.den)
      ++ "." ++ String.mk (fracDigits q.den 20 (q.num.natAbs % q.den))

/-- JS `String(value)` for the scalar values of this model. -/
def jsToString : Value → String
  | .vnull => "null"
  | .vbool b => cond b "true" "false"
  | .vnum q => numToString q
  | .vstr s => s

/-- JS `String.prototype.toLowerCase`, modelled character-wise. -/
def lowerString (s : String) : String := String.mk (s.data.map Char.toLower)

/-- Code-point lexicographic comparison sign on character lists. -/
def lexOrd : List Char → List Char → Int
  | [], [] => 0
  | [], _ :: _ => -1
  | _ :: _, [] => 1
  | a :: as, b :: bs => if a < b then -1 else if b < a then 1 else lexOrd as bs

/-- Sign of `a.localeCompare(b)` (collation modelled as code-point order). -/
def localeCompareSign (a b : String) : Int := lexOrd a.data b.data

/-! ## The sort comparator (DataTable.js lines 229-254) -/

/-- Sort direction: `'asc'` or `'desc'`. -/
inductive SortDir where
  | asc : SortDir
  | desc : SortDir
deriving DecidableEq

/-- The call `parseFloat(value)` for a cell value (`parseFloat` coerces its argument
to a string first; a finite number round-trips, a boolean's string form does
not parse). -/
def parseFloatVal : Value → Option JsNum
  | .vnull => none
  | .vbool _ => none
  | .vnum q => some (.fin q)
  | .vstr s => parseFloatChars s.data

/-- Comparator branch for two non-null cell values: numeric when both parse
(`!isNaN(aNum) && !isNaN(bNum)`), otherwise locale comparison of the
lowercased string forms; `desc` swaps the operands as in the source. -/
def compareNonNull (dir : SortDir) (a b : Value) : Int :=
  match parseFloatVal a, parseFloatVal b with
  | some x, some y =>
    match dir with
    | .asc => jsNumSubSign x y
    | .desc => jsNumSubSign y x
  | _, _ =>
    let as := lowerString (jsToString a)
    let bs := lowerString (jsToString b)
    match dir with
    | .asc => localeCompareSign as bs
    | .desc => localeCompareSign bs as

/-- The full comparator body: null/undefined on the left sorts after
everything (`return 1`), null/undefined on the right sorts before
(`return -1`), both independent of the direction. -/
def compareCell (dir : SortDir) (aVal bVal : Option Value) : Int :=
  if isNullish aVal then 1
  else if isNullish bVal then -1
  else compareNonNull dir (aVal.getD .vnull) (bVal.getD .vnull)

/-- The comparator passed to `sortedData.sort` for a sort column. -/
def compareRows (c : String) (dir : SortDir) (a b : Record) : Int :=
  compareCell dir (lookupField a c) (lookupField b c)

/-- Take-from-left-run condition of the engine's stable merge sort: the left
element `a` stays before the right element `b` unless the comparator says
`b` is strictly smaller.  For a consistent comparator this is `a ≤ b`. -/
def rowLE (c : String) (dir : SortDir) (a b : Record) : Bool :=
  decide (0 ≤ compareRows c dir b a)

/-- The sort step of `processedData`: `[...data]` is sorted only when a sort
column is set. -/
def sortRows (data : List Record) (sc : Option String) (dir : SortDir) :
    List Record :=
  match sc with
  | none => data
  | some c => data.mergeSort (rowLE c dir)

/-- JS `arr.slice(0, e)`: a negative end counts from the end of the array. -/
def jsSlice (l : List Record) (e : Int) : List Record :=
  if 0 ≤ e then l.take e.toNat else l.take (l.length - (-e).toNat)

/-- The step `if (maxRows) sortedData = sortedData.slice(0, maxRows)`: the slice is
applied only when `maxRows` is truthy (neither `null` nor `0`). -/
def applyMaxRows (m : Option Int) (l : List Record) : List Record :=
  match m with
  | none => l
  | some n => if n = 0 then l else jsSlice l n

/-- The memoized `processedData`: empty guard, copy, sort, then row limit. -/
def processedData (data : List Record) (sc : Option String) (dir : SortDir)
    (m : Option Int) : List Record :=
  if data.isEmpty then [] else applyMaxRows m (sortRows data sc dir)

/-! ## Pagination (DataTable.js lines 219, 266-269) -/

/-- The constant `const rowsPerPage = 10`. -/
def rowsPerPage : ℕ := 10

/-- The page count `Math.ceil(processedData.length / rowsPerPage)`. -/
def totalPages (len : ℕ) : ℕ := (len + rowsPerPage - 1) / rowsPerPage

/-! ## Engine state (the component's `useState` hooks and props) -/

/-- The expanded-cell payload `{ value, column, rowIndex }`. -/
structure ExpandedCellInfo where
  value : String
  column : String
  rowIndex : Int
deriving DecidableEq

/-- The interactive state of one mounted `DataTable` component together with
its props: the dataset, `title`, `maxRows` and the four `useState` hooks. -/
structure EngineState where
  data : List Record
  title : String
  maxRows : Option Int
  sortColumn : Option String
  sortDirection : SortDir
  currentPage : Int
  expandedCell : Option ExpandedCellInfo
deriving DecidableEq

/-- A new dataset arrives as a fresh component instance, so every `useState`
hook starts at its initial value: `sortColumn = null`, `sortDirection =
'asc'`, `currentPage = 1`, `expandedCell = null`. -/
def initEngine (data : List Record) (title : String) (maxRows : Option Int) :
    EngineState :=
  { data := data, title := title, maxRows := maxRows,
    sortColumn := none, sortDirection := .asc,
    currentPage := 1, expandedCell := none }

/-- Direction flip `sortDirection === 'asc' ? 'desc' : 'asc'`. -/
def flipDir : SortDir → SortDir
  | .asc => .desc
  | .desc => .asc

/-- The handler `handleSort` (DataTable.js lines 286-294): clicking the current sort
column flips the direction, clicking another column selects it ascending;
either way the page resets to 1. -/
def handleSort (column : String) (st : EngineState) : EngineState :=
  if st.sortColumn = some column then
    { st with sortDirection := flipDir st.sortDirection, currentPage := 1 }
  else
    { st with
        sortColumn := some column
        sortDirection := SortDir.asc
        currentPage := 1 }

/-- The handler `handleCellClick` (DataTable.js lines 316-320): only a string strictly
longer than 50 characters opens the expanded view, storing the original
value; anything else leaves the state unchanged. -/
def handleCellClick (value : Option Value) (column : String) (rowIndex : Int)
    (st : EngineState) : EngineState :=
  match value with
  | some (.vstr s) =>
    if s.length > 50 then
      { st with expandedCell := some ⟨s, column, rowIndex⟩ }
    else st
  | _ => st

/-- The visible row count of a state: length of its derived `processedData`. -/
def visibleRowCount (st : EngineState) : ℕ :=
  (processedData st.data st.sortColumn st.sortDirection st.maxRows).length

/-! ## Cell display (`formatCellValue`, `formatNumber`) -/

/-- Integer digit grouping of `Number.prototype.toLocaleString` for the
`en`-style default locale: thousands separated by commas. -/
def groupDigits (cs : List Char) : List Char :=
  ((cs.reverse.toChunks 3).intersperse [','] ).flatten.reverse

/-- The helper `formatNumber`: `num.toLocaleString()`, modelled as comma
grouping of the integer digits; the default locale's rounding of fractions
to at most 3 digits is approximated by truncation of the exact expansion. -/
def formatNumber (q : ℚ) : String :=
  let sign := if q.num < 0 then "-" else ""
  let ip := String.mk (groupDigits (natDigitsAux (q.num.natAbs / q.den + 1) (q.num.natAbs / q.den)))
  if q.den = 1 then sign ++ ip
  else sign ++ ip ++ "." ++ String.mk (fracDigits q.den 3 (q.num.natAbs % q.den))

/-- The function `formatCellValue` (DataTable.js lines 307-314): null/undefined display as
`"-"`, numbers are locale-formatted, strings longer than 50 characters are
truncated to their first 50 characters plus `"..."`, and everything else
shows its default string form. -/
def formatCellValue : Option Value → String
  | none => "-"
  | some .vnull => "-"
  | some (.vnum q) => formatNumber q
  | some (.vstr s) =>
    if s.length > 50 then String.mk (s.data.take 50) ++ "..." else s
  | some (.vbool b) => cond b "true" "false"

/-! ## Export (`handleExport`, `convertToCSV`, `downloadJSON`) -/

mutual

/-- Maximal runs of whitespace replaced by single underscores
(`replace(/\s+/g, '_')`, the regex restricted to the modelled whitespace). -/
def collapseWsList : List Char → List Char
  | [] => []
  | c :: cs => if jsWhitespace c then '_' :: skipWsList cs else c :: collapseWsList cs

/-- Helper of `collapseWsList`: drop the rest of the current whitespace run. -/
def skipWsList : List Char → List Char
  | [] => []
  | c :: cs => if jsWhitespace c then skipWsList cs else c :: collapseWsList cs

end

/-- The export filename: lowercased title, whitespace runs collapsed to
underscores, then `.<format>`. -/
def exportFilename (title format : String) : String :=
  String.mk (collapseWsList (lowerString title).data) ++ "." ++ format

/-- Double every double quote in a string (`value.replace(/"/g, '""')`). -/
def doubleQuotes (s : String) : String :=
  String.mk (s.data.flatMap (fun c => if c = '"' then ['"', '"'] else [c]))

/-- One CSV field of `convertToCSV`: null/undefined become the empty field;
a string containing a comma, double quote or newline is wrapped in double
quotes with inner quotes doubled; other values use their string form. -/
def csvField : Option Value → String
  | none => ""
  | some .vnull => ""
  | some (.vstr s) =>
    if s.data.contains ',' || s.data.contains '"' || s.data.contains '\n' then
      "\"" ++ doubleQuotes s ++ "\""
    else s
  | some (.vnum q) => numToString q
  | some (.vbool b) => cond b "true" "false"

/-- The helper `convertToCSV` (ChatPage.js helpers, lines 328-355): empty input yields
the empty string; otherwise the first record's keys form the header line and
every record yields one comma-joined line, all joined by newlines. -/
def convertToCSV (data : List Record) : String :=
  if data.isEmpty then ""
  else
    let headers := (data.headD []).map Prod.fst
    let csvHeaders := String.intercalate "," headers
    let csvRows := data.map (fun row =>
      String.intercalate "," (headers.map (fun h => csvField (lookupField row h))))
    String.intercalate "\n" (csvHeaders :: csvRows)

/-- JSON string escaping of `JSON.stringify` for the characters that occur in
this model: quote, backslash and ASCII control characters. -/
def jsonEscapeChar (c : Char) : List Char :=
  if c = '"' then ['\\', '"']
  else if c = '\\' then ['\\', '\\']
  else if c = '\n' then ['\\', 'n']
  else if c = '\t' then ['\\', 't']
  else if c = '\r' then ['\\', 'r']
  else if c.toNat < 32 then
    ['\\', 'u', '0', '0',
      Char.ofNat (if c.toNat / 16 < 10 then 48 + c.toNat / 16 else 87 + c.toNat / 16),
      Char.ofNat (if c.toNat % 16 < 10 then 48 + c.toNat % 16 else 87 + c.toNat % 16)]
  else [c]

/-- A JSON string literal. -/
def jsonQuote (s : String) : String :=
  "\"" ++ String.mk (s.data.flatMap jsonEscapeChar) ++ "\""

/-- A JSON scalar. -/
def jsonScalar : Value → String
  | .vnull => "null"
  | .vbool b => cond b "true" "false"
  | .vnum q => numToString q
  | .vstr s => jsonQuote s

/-- One `"key": value` line of a record at `JSON.stringify` indent level 2. -/
def jsonFieldLine (p : String × Value) : String :=
  "    " ++ jsonQuote p.1 ++ ": " ++ jsonScalar p.2

/-- One record as a 2-space-indented JSON object nested in the top array. -/
def jsonObj (r : Record) : String :=
  if r.isEmpty then "\x7b\x7d"
  else "\x7b\n" ++ String.intercalate ",\n" (r.map jsonFieldLine) ++ "\n  \x7d"

/-- The output of `JSON.stringify(data, null, 2)` for a list of records. -/
def jsonStringify (data : List Record) : String :=
  if data.isEmpty then "[]"
  else "[\n" ++ String.intercalate ",\n" (data.map (fun r => "  " ++ jsonObj r)) ++ "\n]"

/-- The rows handed to the exporter: `maxRows ? data.slice(0, maxRows) :
data` — the raw dataset in canonical order, never the sorted view. -/
def exportedRows (st : EngineState) : List Record :=
  applyMaxRows st.maxRows st.data

/-- The byte stream produced for a format: `'csv'` uses the CSV serializer,
any other format string falls back to JSON. -/
def exportBytes (format : String) (rows : List Record) : String :=
  if format = "csv" then convertToCSV rows else jsonStringify rows

/-- The handler `handleExport` (DataTable.js lines 296-305): the pair of download
filename and serialized bytes handed to the download collaborator. -/
def handleExport (format : String) (st : EngineState) : String × String :=
  (exportFilename st.title format, exportBytes format (exportedRows st))

/-! ## Spec-side definition used by claim C6 -/

/-- Comparison of two non-null values as claim C6 words it: numeric exactly
when both values parse as finite floats under the permissive parser, locale
comparison of the lowercased string forms otherwise.  To be compared with the
comparator `compareNonNull` embedded from the source. -/
def claimedCompare (dir : SortDir) (a b : Value) : Int :=
  match parseFloatVal a, parseFloatVal b with
  | some (.fin x), some (.fin y) =>
    match dir with
    | .asc => if x < y then -1 else if y < x then 1 else 0
    | .desc => if y < x then -1 else if x < y then 1 else 0
  | _, _ =>
    let as := lowerString (jsToString a)
    let bs := lowerString (jsToString b)
    match dir with
    | .asc => localeCompareSign as bs
    | .desc => localeCompareSign bs as

/-! ## Generic lemmas about the stable merge sort

The partition lemma drives the nulls-last claims; the indexed lemma drives
the stability claims.  Neither requires the comparator to be transitive,
which matters because the mixed numeric/string comparator of the source is
not transitive. -/

/-- Merging two lists that are pairwise `N`-partitioned (no `N` element
before a non-`N` element) yields an `N`-partitioned list, provided `N`
elements are absorbing maxima of `le`. -/
theorem merge_pairwise_partition {α : Type _} (le : α → α → Bool) (N : α → Prop)
    (hN1 : ∀ x y, N x → le x y = true → N y)
    (hN2 : ∀ x y, N y → le x y = true) :
    ∀ (l1 l2 : List α), l1.Pairwise (fun a b => N a → N b) →
      l2.Pairwise (fun a b => N a → N b) →
      (List.merge l1 l2 le).Pairwise (fun a b => N a → N b)
  | [], l2, _, h2 => by simpa using h2
  | x :: xs, [], h1, _ => by simpa using h1
  | x :: xs, y :: ys, h1, h2 => by
    rw [List.cons_merge_cons]
    by_cases h : le x y = true
    · rw [if_pos h]
      refine List.pairwise_cons.mpr
        ⟨?_, merge_pairwise_partition le N hN1 hN2 xs (y :: ys) h1.of_cons h2⟩
      intro z hz hNx
      rcases List.mem_merge.mp hz with hz1 | hz2
      · exact (List.pairwise_cons.mp h1).1 z hz1 hNx
      · have hNy : N y := hN1 x y hNx h
        rcases List.mem_cons.mp hz2 with rfl | hz3
        · exact hNy
        · exact (List.pairwise_cons.mp h2).1 z hz3 hNy
    · rw [if_neg h]
      refine List.pairwise_cons.mpr
        ⟨?_, merge_pairwise_partition le N hN1 hN2 (x :: xs) ys h1 h2.of_cons⟩
      intro z _ hNy
      exact absurd (hN2 x y hNy) h
termination_by l1 l2 => l1.length + l2.length

/-- The stable merge sort leaves no `N` element before a non-`N` element,
for any input, provided `N` elements are absorbing maxima of `le`. -/
theorem mergeSort_pairwise_partition {α : Type _} (le : α → α → Bool) (N : α → Prop)
    (hN1 : ∀ x y, N x → le x y = true → N y)
    (hN2 : ∀ x y, N y → le x y = true) :
    ∀ (l : List α), (l.mergeSort le).Pairwise (fun a b => N a → N b)
  | [] => by simp
  | [a] => by simp
  | a :: b :: xs => by
    have hl1 : (List.splitInTwo ⟨a :: b :: xs, rfl⟩).1.1.length < xs.length + 1 + 1 := by
      simp [List.splitInTwo_fst]; omega
    have hl2 : (List.splitInTwo ⟨a :: b :: xs, rfl⟩).2.1.length < xs.length + 1 + 1 := by
      simp [List.splitInTwo_snd]; omega
    rw [List.mergeSort]
    exact merge_pairwise_partition le N hN1 hN2 _ _
      (mergeSort_pairwise_partition le N hN1 hN2 _)
      (mergeSort_pairwise_partition le N hN1 hN2 _)
termination_by l => l.length

/-- Merging index-annotated lists whose left indices all precede the right
indices preserves the property that two `N` elements keep increasing
indices, provided `N` elements are maxima of `le`. -/
theorem merge_pairwise_stable {α : Type _} (le : α → α → Bool) (N : α → Prop)
    (hN2 : ∀ x y, N y → le x y = true) :
    ∀ (l1 l2 : List (ℕ × α)),
      l1.Pairwise (fun a b => N a.2 → N b.2 → a.1 < b.1) →
      l2.Pairwise (fun a b => N a.2 → N b.2 → a.1 < b.1) →
      (∀ a ∈ l1, ∀ b ∈ l2, a.1 < b.1) →
      (List.merge l1 l2 (fun a b => le a.2 b.2)).Pairwise
        (fun a b => N a.2 → N b.2 → a.1 < b.1)
  | [], l2, _, h2, _ => by simpa using h2
  | x :: xs, [], h1, _, _ => by simpa using h1
  | x :: xs, y :: ys, h1, h2, hidx => by
    rw [List.cons_merge_cons]
    by_cases h : le x.2 y.2 = true
    · rw [if_pos h]
      refine List.pairwise_cons.mpr
        ⟨?_, merge_pairwise_stable le N hN2 xs (y :: ys) h1.of_cons h2
          (fun a ha b hb => hidx a (List.mem_cons_of_mem x ha) b hb)⟩
      intro z hz hNx hNz
      rcases List.mem_merge.mp hz with hz1 | hz2
      · exact (List.pairwise_cons.mp h1).1 z hz1 hNx hNz
      · exact hidx x (List.mem_cons_self x xs) z hz2
    · rw [if_neg h]
      refine List.pairwise_cons.mpr
        ⟨?_, merge_pairwise_stable le N hN2 (x :: xs) ys h1 h2.of_cons
          (fun a ha b hb => hidx a ha b (List.mem_cons_of_mem y hb))⟩
      intro z hz hNy hNz
      rcases List.mem_merge.mp hz with hz1 | hz2
      · exact absurd (hN2 x.2 y.2 hNy) h
      · exact (List.pairwise_cons.mp h2).1 z hz2 hNy hNz
termination_by l1 l2 => l1.length + l2.length

/-- Every element of `enumFrom n l` has index at least `n`. -/
theorem le_fst_of_mem_enumFrom {α : Type _} :
    ∀ {l : List α} {n : ℕ} {x : ℕ × α}, x ∈ l.enumFrom n → n ≤ x.1
  | [], _, _, h => by simp at h
  | a :: as, n, x, h => by
    rw [List.enumFrom] at h
    rcases List.mem_cons.mp h with rfl | h2
    · exact le_refl n
    · exact Nat.le_of_succ_le (le_fst_of_mem_enumFrom h2)

/-- Index annotations of `enumFrom` are strictly increasing. -/
theorem pairwise_lt_enumFrom {α : Type _} :
    ∀ (l : List α) (n : ℕ), (l.enumFrom n).Pairwise (fun a b => a.1 < b.1)
  | [], _ => by simp
  | a :: as, n => by
    rw [List.enumFrom]
    refine List.pairwise_cons.mpr ⟨?_, pairwise_lt_enumFrom as (n + 1)⟩
    intro z hz
    exact Nat.lt_of_succ_le (le_fst_of_mem_enumFrom hz)

/-- Index annotations of `enum` are strictly increasing. -/
theorem pairwise_lt_enum {α : Type _} (l : List α) :
    l.enum.Pairwise (fun a b => a.1 < b.1) :=
  pairwise_lt_enumFrom l 0

/-- On an index-annotated input with strictly increasing indices, the stable
merge sort keeps two `N` elements in their original relative order, provided
`N` elements are maxima of `le`. -/
theorem mergeSort_pairwise_stable {α : Type _} (le : α → α → Bool) (N : α → Prop)
    (hN2 : ∀ x y, N y → le x y = true) :
    ∀ (l : List (ℕ × α)), l.Pairwise (fun a b => a.1 < b.1) →
      (l.mergeSort (fun a b => le a.2 b.2)).Pairwise
        (fun a b => N a.2 → N b.2 → a.1 < b.1)
  | [], _ => by simp
  | [a], _ => by simp
  | a :: b :: xs, hInc => by
    have hl1 : (List.splitInTwo ⟨a :: b :: xs, rfl⟩).1.1.length < xs.length + 1 + 1 := by
      simp [List.splitInTwo_fst]; omega
    have hl2 : (List.splitInTwo ⟨a :: b :: xs, rfl⟩).2.1.length < xs.length + 1 + 1 := by
      simp [List.splitInTwo_snd]; omega
    rw [List.mergeSort]
    have hsplit : (List.splitInTwo ⟨a :: b :: xs, rfl⟩).1.1
        ++ (List.splitInTwo ⟨a :: b :: xs, rfl⟩).2.1 = a :: b :: xs :=
      List.splitInTwo_fst_append_splitInTwo_snd _
    have hInc2 : ((List.splitInTwo ⟨a :: b :: xs, rfl⟩).1.1
        ++ (List.splitInTwo ⟨a :: b :: xs, rfl⟩).2.1).Pairwise
          (fun a b => a.1 < b.1) := by
      rw [hsplit]; exact hInc
    obtain ⟨hIncL, hIncR, hCross⟩ := List.pairwise_append.mp hInc2
    refine merge_pairwise_stable le N hN2 _ _
      (mergeSort_pairwise_stable le N hN2 _ hIncL)
      (mergeSort_pairwise_stable le N hN2 _ hIncR) ?_
    intro p hp q hq
    exact hCross p (List.mem_mergeSort.mp hp) q (List.mem_mergeSort.mp hq)
termination_by l => l.length

/-- A relation holding between all members of a list holds pairwise. -/
theorem pairwise_of_forall_mem {α : Type _} {R : α → α → Prop} :
    ∀ {l : List α}, (∀ a ∈ l, ∀ b ∈ l, R a b) → l.Pairwise R
  | [], _ => List.Pairwise.nil
  | a :: as, h => List.pairwise_cons.mpr
      ⟨fun b hb => h a (List.mem_cons_self a as) b (List.mem_cons_of_mem a hb),
       pairwise_of_forall_mem (fun x hx y hy =>
         h x (List.mem_cons_of_mem a hx) y (List.mem_cons_of_mem a hy))⟩

/-! ## Facts about the row comparator needed by the sort claims -/

/-- A row with a null/undefined sort key never stays in front of a row with
a non-null key: `rowLE` from a null-keyed row forces a null-keyed row. -/
theorem rowLE_null_left {c : String} {dir : SortDir} {x y : Record}
    (hx : isNullish (lookupField x c) = true) (h : rowLE c dir x y = true) :
    isNullish (lookupField y c) = true := by
  by_cases hy : isNullish (lookupField y c) = true
  · exact hy
  · exfalso
    have hy2 : isNullish (lookupField y c) = false := by
      simpa using hy
    simp [rowLE, compareRows, compareCell, hy2, hx] at h

/-- Any row may stay in front of a row with a null/undefined sort key: the
comparator returns 1 on a null left operand, independent of direction. -/
theorem rowLE_null_right {c : String} {dir : SortDir} {x y : Record}
    (hy : isNullish (lookupField y c) = true) : rowLE c dir x y = true := by
  simp [rowLE, compareRows, compareCell, hy]

/-- The row limit of `processedData` only ever drops rows (it is a prefix
operation), so pairwise properties survive it. -/
theorem applyMaxRows_sublist (m : Option Int) (l : List Record) :
    List.Sublist (applyMaxRows m l) l := by
  cases m with
  | none => exact List.Sublist.refl l
  | some n =>
    rw [applyMaxRows]
    split
    · exact List.Sublist.refl l
    · rw [jsSlice]
      split
      · exact List.take_sublist _ _
      · exact List.take_sublist _ _

/-! ## The claims -/

/-- C1 counterexample: replacing the dataset with the empty dataset resets
`currentPage` to 1, but the visible row count is 0, so `totalPages` is 0 and
the claimed invariant `currentPage ≤ ceil(visibleRowCount / pageSize)` fails
right after the replacement. -/
theorem c1_counterexample :
    (initEngine [] "Data Table" none).currentPage = 1
    ∧ visibleRowCount (initEngine [] "Data Table" none) = 0
    ∧ ¬((initEngine [] "Data Table" none).currentPage
        ≤ (totalPages (visibleRowCount (initEngine [] "Data Table" none)) : Int)) := by
  decide

/-- C1 (amended): a dataset replacement resets `SortState` to
`{none, ascending}`, `currentPage` to 1 and clears `ExpandedCell`; the
invariant `currentPage ≤ ceil(visibleRowCount / pageSize)` holds after the
replacement whenever the visible row count is at least 1 (for an empty
visible set `totalPages` is 0 while `currentPage` is 1). -/
theorem c1_amended (data : List Record) (title : String) (m : Option Int)
    (h : 1 ≤ visibleRowCount (initEngine data title m)) :
    (initEngine data title m).sortColumn = none
    ∧ (initEngine data title m).sortDirection = SortDir.asc
    ∧ (initEngine data title m).currentPage = 1
    ∧ (initEngine data title m).expandedCell = none
    ∧ (initEngine data title m).currentPage
        ≤ (totalPages (visibleRowCount (initEngine data title m)) : Int) := by
  refine ⟨rfl, rfl, rfl, rfl, ?_⟩
  have h2 : 1 ≤ totalPages (visibleRowCount (initEngine data title m)) := by
    rw [totalPages, rowsPerPage]
    omega
  show (1 : Int) ≤ _
  exact_mod_cast h2

/-- C1 witness: a one-row dataset satisfies the amended invariant. -/
theorem c1_amended_witness :
    (initEngine [[("a", Value.vnull)]] "t" none).currentPage
      ≤ (totalPages (visibleRowCount (initEngine [[("a", Value.vnull)]] "t" none)) : Int) :=
  (c1_amended [[("a", Value.vnull)]] "t" none (by decide)).2.2.2.2

/-- C2: for every dataset, sort column, direction and row limit, the derived
visible rows never show a row whose sort-key value is null/undefined before
a row whose sort-key value is non-null. -/
theorem c2_nulls_last (data : List Record) (c : String) (dir : SortDir)
    (m : Option Int) :
    (processedData data (some c) dir m).Pairwise
      (fun a b => isNullish (lookupField a c) = true →
        isNullish (lookupField b c) = true) := by
  have hsort : (sortRows data (some c) dir).Pairwise
      (fun a b => isNullish (lookupField a c) = true →
        isNullish (lookupField b c) = true) :=
    mergeSort_pairwise_partition (rowLE c dir)
      (fun r => isNullish (lookupField r c) = true)
      (fun x y hx h => rowLE_null_left hx h)
      (fun x y hy => rowLE_null_right hy) data
  rw [processedData]
  split
  · exact List.Pairwise.nil
  · exact List.Pairwise.sublist (applyMaxRows_sublist m _) hsort

/-- C3 counterexample: the rows with keys `"-INFINITY"` and `"-Infinity"`
compare equal (both comparator orders return 0: the first does not parse,
the second parses to negative infinity, so they compare as equal lowercased
strings), yet sorting the dataset `["-INFINITY", "-5", "-Infinity"]`
ascending reorders them: the comparator is not transitive (`"-Infinity"` is
numerically below `"-5"`, which is lexicographically below `"-INFINITY"`),
so the merge sort swaps the two equal-comparing rows. -/
theorem c3_counterexample :
    sortRows [[("a", Value.vstr "-INFINITY")], [("a", Value.vstr "-5")],
        [("a", Value.vstr "-Infinity")]] (some "a") .asc
      = [[("a", Value.vstr "-Infinity")], [("a", Value.vstr "-5")],
        [("a", Value.vstr "-INFINITY")]]
    ∧ compareRows "a" .asc [("a", Value.vstr "-INFINITY")]
        [("a", Value.vstr "-Infinity")] = 0
    ∧ compareRows "a" .asc [("a", Value.vstr "-Infinity")]
        [("a", Value.vstr "-INFINITY")] = 0 := by
  refine ⟨?_, by decide, by decide⟩
  simp +decide [sortRows, List.mergeSort, List.splitInTwo, List.merge]

/-- C3 (amended): rows whose sort-key values are both null/undefined always
keep their original relative order; rows with equal-comparing non-null keys
are not guaranteed to (the comparator is inconsistent on columns mixing
numeric-parsing and non-parsing strings and the sort may then reorder
ties).  Stated on the index-annotated sort, whose projection is exactly the
derived row order `sortRows`. -/
theorem c3_amended (data : List Record) (c : String) (dir : SortDir) :
    ((data.enum.mergeSort (fun a b => rowLE c dir a.2 b.2)).map Prod.snd
        = sortRows data (some c) dir)
    ∧ (data.enum.mergeSort (fun a b => rowLE c dir a.2 b.2)).Pairwise
        (fun a b => isNullish (lookupField a.2 c) = true →
          isNullish (lookupField b.2 c) = true → a.1 < b.1) := by
  constructor
  · have h := List.map_mergeSort (r := fun a b : ℕ × Record => rowLE c dir a.2 b.2)
      (s := rowLE c dir) (f := Prod.snd) (l := data.enum) (fun a _ b _ => rfl)
    rw [h, List.enum_map_snd]
    rfl
  · exact mergeSort_pairwise_stable (rowLE c dir)
      (fun r => isNullish (lookupField r c) = true)
      (fun x y hy => rowLE_null_right hy) data.enum (pairwise_lt_enum data)

/-- C4: the export output depends only on the dataset, `maxRows`, `title`
and format — states differing only in sort and page state export
byte-identical filename and bytes — and the exported rows are the first
`maxRows` rows of the dataset in canonical order (all rows when `maxRows`
is null). -/
theorem c4_export_canonical :
    (∀ (format : String) (s1 s2 : EngineState), s1.data = s2.data →
      s1.maxRows = s2.maxRows → s1.title = s2.title →
      handleExport format s1 = handleExport format s2)
    ∧ (∀ (st : EngineState) (n : ℕ), st.maxRows = some ((n : Int) + 1) →
        exportedRows st = st.data.take (n + 1))
    ∧ (∀ st : EngineState, st.maxRows = none → exportedRows st = st.data) := by
  refine ⟨?_, ?_, ?_⟩
  · intro format s1 s2 hd hm ht
    rw [handleExport, handleExport, exportedRows, exportedRows, hd, hm, ht]
  · intro st n hm
    rw [exportedRows, hm, applyMaxRows]
    have hne : ¬((n : Int) + 1 = 0) := by omega
    rw [if_neg hne, jsSlice, if_pos (by omega)]
    have ht : ((n : Int) + 1).toNat = n + 1 := by omega
    rw [ht]
  · intro st hm
    rw [exportedRows, hm]
    rfl

/-- C4 witness: two states over the same dataset, `maxRows` and title but
with different sort and page state produce identical export output. -/
theorem c4_witness :
    handleExport "csv"
        ⟨[[("a", Value.vstr "x")], [("a", Value.vstr "y")]], "T", some 1,
          some "a", SortDir.desc, 2, none⟩
      = handleExport "csv"
        ⟨[[("a", Value.vstr "x")], [("a", Value.vstr "y")]], "T", some 1,
          none, SortDir.asc, 1, none⟩ :=
  c4_export_canonical.1 "csv" _ _ rfl rfl rfl

/-- C5: sorting by a column absent from every record is accepted and is a
no-op: the sort step returns the dataset unchanged, and the derived visible
rows agree with the unsorted view for every row limit. -/
theorem c5_absent_column (data : List Record) (c : String) (dir : SortDir)
    (m : Option Int) (habs : ∀ r ∈ data, lookupField r c = none) :
    sortRows data (some c) dir = data
    ∧ processedData data (some c) dir m = processedData data none dir m := by
  have hpw : data.Pairwise (fun a b => rowLE c dir a b = true) :=
    pairwise_of_forall_mem (fun a _ b hb => by
      have hb2 : isNullish (lookupField b c) = true := by
        rw [habs b hb]
        rfl
      exact rowLE_null_right hb2)
  have hsort : sortRows data (some c) dir = data :=
    List.mergeSort_of_sorted hpw
  refine ⟨hsort, ?_⟩
  rw [processedData, processedData, hsort, sortRows]

/-- C5 witness: sorting two rows by the absent column `"b"` leaves them in
place. -/
theorem c5_witness :
    sortRows [[("a", Value.vstr "x")], [("a", Value.vnum 1)]] (some "b") .asc
      = [[("a", Value.vstr "x")], [("a", Value.vnum 1)]] :=
  (c5_absent_column [[("a", Value.vstr "x")], [("a", Value.vnum 1)]] "b"
    .asc none (by decide)).1

/-- C6 counterexample: `"Infinity"` does not parse as a finite float, so the
claim prescribes the string branch for the pair (`"Infinity"`,
`"+Infinity"`), which orders them strictly; the code parses both with a
non-NaN result and compares numerically, where the difference of the two
infinities is NaN and the pair ties. -/
theorem c6_counterexample :
    compareNonNull .asc (Value.vstr "Infinity") (Value.vstr "+Infinity")
      ≠ claimedCompare .asc (Value.vstr "Infinity") (Value.vstr "+Infinity") := by
  decide

/-- C6 (amended): when both non-null values parse under the permissive
parser — finite or infinite — the comparison is numeric, with the difference
of two like-signed infinities treated as a tie; only when at least one value
fails to parse entirely is the comparison the locale comparison of the
lowercased string forms; ascending sort on `"10"` and `"9"` places `"9"`
first. -/
theorem c6_amended (dir : SortDir) (a b : Value) :
    (∀ x y, parseFloatVal a = some x → parseFloatVal b = some y →
      compareNonNull dir a b
        = (match dir with
           | .asc => jsNumSubSign x y
           | .desc => jsNumSubSign y x))
    ∧ ((parseFloatVal a = none ∨ parseFloatVal b = none) →
      compareNonNull dir a b
        = (match dir with
           | .asc => localeCompareSign (lowerString (jsToString a))
               (lowerString (jsToString b))
           | .desc => localeCompareSign (lowerString (jsToString b))
               (lowerString (jsToString a))))
    ∧ sortRows [[("a", Value.vstr "10")], [("a", Value.vstr "9")]]
        (some "a") .asc
      = [[("a", Value.vstr "9")], [("a", Value.vstr "10")]] := by
  refine ⟨?_, ?_, ?_⟩
  · intro x y hx hy
    rw [compareNonNull, hx, hy]
  · intro h
    rw [compareNonNull]
    rcases h with h | h
    · rw [h]
    · rw [h]
      cases parseFloatVal a <;> rfl
  · simp +decide [sortRows, List.mergeSort, List.splitInTwo, List.merge]

/-- C6 witness: `"10"` and `"9"` both parse, so their ascending comparison
is numeric and positive. -/
theorem c6_amended_witness :
    compareNonNull .asc (Value.vstr "10") (Value.vstr "9") = 1 := by
  have h := (c6_amended .asc (Value.vstr "10") (Value.vstr "9")).1
    (JsNum.fin 10) (JsNum.fin 9) (by decide) (by decide)
  rw [h]
  decide

/-- C7: the CSV serialization of a non-empty dataset is the header line of
the first record's column names joined by commas, followed by one line per
record where null/undefined values are empty fields and strings containing
a comma, double quote or newline are wrapped in double quotes with internal
quotes doubled, all joined by newlines; the value `Hello, "World"`
serializes as `"Hello, ""World"""`. -/
theorem c7_csv (data : List Record) (hd : Record) (tl : List Record)
    (h : data = hd :: tl) :
    convertToCSV data
      = String.intercalate "\n"
          (String.intercalate "," (hd.map Prod.fst)
            :: data.map (fun row =>
                 String.intercalate ","
                   ((hd.map Prod.fst).map (fun c => csvField (lookupField row c)))))
    ∧ csvField (some Value.vnull) = ""
    ∧ csvField none = ""
    ∧ (∀ s : String,
        (s.data.contains ',' || s.data.contains '"' || s.data.contains '\n') = true →
        csvField (some (Value.vstr s)) = "\"" ++ doubleQuotes s ++ "\"")
    ∧ (∀ s : String,
        (s.data.contains ',' || s.data.contains '"' || s.data.contains '\n') = false →
        csvField (some (Value.vstr s)) = s)
    ∧ csvField (some (Value.vstr "Hello, \"World\""))
        = "\"Hello, \"\"World\"\"\"" := by
  subst h
  refine ⟨?_, rfl, rfl, ?_, ?_, by decide⟩
  · rw [convertToCSV]
    simp [List.headD]
  · intro s hs
    rw [csvField, if_pos hs]
  · intro s hs
    rw [csvField]
    rw [if_neg]
    rw [hs]
    exact Bool.false_ne_true

/-- C7 witness: a one-row dataset with the claimed value serializes to the
claimed bytes. -/
theorem c7_witness :
    convertToCSV [[("name", Value.vstr "Hello, \"World\"")]]
      = "name\n\"Hello, \"\"World\"\"\"" := by
  have h := (c7_csv [[("name", Value.vstr "Hello, \"World\"")]]
    [("name", Value.vstr "Hello, \"World\"")] [] rfl).1
  rw [h]
  decide

/-- C8: a string longer than 50 characters displays as its first 50
characters plus an ellipsis, activating its cell stores the original
untruncated string in `ExpandedCell`, and activation is a no-op for every
value that is not a string longer than 50 characters. -/
theorem c8_truncation (s : String) (h : 50 < s.length) :
    formatCellValue (some (Value.vstr s)) = String.mk (s.data.take 50) ++ "..."
    ∧ (∀ (st : EngineState) (c : String) (i : Int),
        (handleCellClick (some (Value.vstr s)) c i st).expandedCell
          = some ⟨s, c, i⟩)
    ∧ (∀ (v : Option Value) (st : EngineState) (c : String) (i : Int),
        (∀ s2, v = some (Value.vstr s2) → s2.length ≤ 50) →
        handleCellClick v c i st = st) := by
  refine ⟨?_, ?_, ?_⟩
  · rw [formatCellValue, if_pos h]
  · intro st c i
    rw [handleCellClick]
    rw [if_pos h]
  · intro v st c i hv
    cases v with
    | none => rfl
    | some val =>
      cases val with
      | vnull => rfl
      | vbool b => rfl
      | vnum q => rfl
      | vstr s2 =>
        have hle := hv s2 rfl
        rw [handleCellClick, if_neg (by omega)]

/-- C8 witness: a 60-character string displays as its first 50 characters
plus the ellipsis, and activation stores the full string. -/
theorem c8_witness :
    formatCellValue (some (Value.vstr
        "abcdefghijklmnopqrstuvwxyzabcdefghijklmnopqrstuvwxyzabcdefgh"))
      = "abcdefghijklmnopqrstuvwxyzabcdefghijklmnopqrstuvwx" ++ "..."
    ∧ (handleCellClick (some (Value.vstr
        "abcdefghijklmnopqrstuvwxyzabcdefghijklmnopqrstuvwxyzabcdefgh"))
        "col" 0 (initEngine [] "t" none)).expandedCell
      = some ⟨"abcdefghijklmnopqrstuvwxyzabcdefghijklmnopqrstuvwxyzabcdefgh",
          "col", 0⟩ := by
  have h := c8_truncation
    "abcdefghijklmnopqrstuvwxyzabcdefghijklmnopqrstuvwxyzabcdefgh" (by decide)
  refine ⟨?_, h.2.1 (initEngine [] "t" none) "col" 0⟩
  rw [h.1]
  decide

/-- C9: clicking the current sort column flips the direction and keeps the
column, clicking any other column selects it with ascending direction, and
the page resets to 1 in both cases. -/
theorem c9_handleSort (c : String) (st : EngineState) :
    (handleSort c st).sortColumn = some c
    ∧ (handleSort c st).sortDirection
        = (if st.sortColumn = some c then flipDir st.sortDirection
           else SortDir.asc)
    ∧ (handleSort c st).currentPage = 1
    ∧ (handleSort c st).data = st.data
    ∧ (handleSort c st).expandedCell = st.expandedCell := by
  by_cases h : st.sortColumn = some c <;> simp [handleSort, h]

/-- C10: a falsy `maxRows` (null or 0) applies no row limit anywhere: the
derived visible rows are exactly the (sorted) dataset — a permutation of all
rows — and export hands the entire dataset to the exporter. -/
theorem c10_falsy_maxRows :
    (∀ l : List Record, applyMaxRows none l = l)
    ∧ (∀ l : List Record, applyMaxRows (some 0) l = l)
    ∧ (∀ (d : List Record) (sc : Option String) (dir : SortDir),
        processedData d sc dir none = sortRows d sc dir
        ∧ processedData d sc dir (some 0) = sortRows d sc dir
        ∧ (processedData d sc dir none).Perm d)
    ∧ (∀ st : EngineState, st.maxRows = none ∨ st.maxRows = some 0 →
        exportedRows st = st.data) := by
  have happ0 : ∀ l : List Record, applyMaxRows (some 0) l = l := by
    intro l
    rw [applyMaxRows, if_pos rfl]
  have hproc : ∀ (d : List Record) (sc : Option String) (dir : SortDir),
      processedData d sc dir none = sortRows d sc dir := by
    intro d sc dir
    rw [processedData]
    split
    · rename_i hde
      have hd : d = [] := by
        cases d with
        | nil => rfl
        | cons a as => simp at hde
      subst hd
      cases sc with
      | none => rfl
      | some c => rw [sortRows, List.mergeSort_nil]
    · rfl
  have hsortperm : ∀ (d : List Record) (sc : Option String) (dir : SortDir),
      (sortRows d sc dir).Perm d := by
    intro d sc dir
    cases sc with
    | none => exact List.Perm.refl d
    | some c => exact List.mergeSort_perm d _
  refine ⟨fun l => rfl, happ0, ?_, ?_⟩
  · intro d sc dir
    refine ⟨hproc d sc dir, ?_, ?_⟩
    · rw [processedData]
      split
      · rename_i hde
        have hd : d = [] := by
          cases d with
          | nil => rfl
          | cons a as => simp at hde
        subst hd
        cases sc with
        | none => rfl
        | some c => rw [sortRows, List.mergeSort_nil]
      · rw [happ0]
    · rw [hproc d sc dir]
      exact hsortperm d sc dir
  · intro st hm
    rcases hm with hm | hm
    · rw [exportedRows, hm]
      exact rfl
    · rw [exportedRows, hm]
      exact happ0 st.data

/-- C10 witness: a state with null `maxRows` exports its entire dataset. -/
theorem c10_witness :
    exportedRows ⟨[[("a", Value.vnum 1)]], "t", none, none, SortDir.asc, 1, none⟩
      = [[("a", Value.vnum 1)]] :=
  c10_falsy_maxRows.2.2.2 _ (Or.inl rfl)

end EsgGrid
